import Mathlib

/-!
# Verification of `const_array_map` (crate `const-assoc`)

Shallow embedding of the crate's core: the index mapping
(`key_to_index` via `into_usize`), the fixed associative storage
(`Assoc`), its accessors, and the literal-construction pipeline of the
`assoc!` facility (`has_duplicate_keys`, `new_uninit`, slot writes
through `const_get_mut`, `assume_init`).

Target platform: `target_pointer_width = "64"` (the widest `cfg` arm of
`into_usize`, which supports all five discriminant widths).
-/

/-- The primitive representation widths supported by `into_usize` on a
64-bit target: `u8`, `u16`, `u32`, `u64` and `usize`. -/
inductive DiscWidth where
  | u8
  | u16
  | u32
  | u64
  | uSize
deriving DecidableEq, Repr

/-- Bit width of each discriminant type (`usize` is 64 bits on the
modelled target). -/
def DiscWidth.bits : DiscWidth → Nat
  | .u8 => 8
  | .u16 => 16
  | .u32 => 32
  | .u64 => 64
  | .uSize => 64

/-- A value of a primitive discriminant type of width `w`: a machine
integer, represented by its numeric value below `2 ^ w.bits`. -/
structure Disc (w : DiscWidth) where
  val : Nat
  isLt : val < 2 ^ w.bits
deriving DecidableEq, Repr

/-- `utils::into_usize` (the `target_pointer_width = "64"` version):
dispatch on the discriminant type via the type witness and convert with
an `as usize` cast (`% 2 ^ 64` models the cast's truncation; the
`usize` arm is the identity, no cast). -/
def into_usize : {w : DiscWidth} → Disc w → Nat
  | .u8, value => value.val % 2 ^ 64
  | .u16, value => value.val % 2 ^ 64
  | .u32, value => value.val % 2 ^ 64
  | .u64, value => value.val % 2 ^ 64
  | .uSize, value => value.val

/-- `utils::transmute_safe`: a zero-cost reinterpretation between
layout-compatible types. In the hand-verified chain used by the crate
(key type → `EnumKeyImpl` → discriminant) every step preserves the bit
pattern, i.e. the discriminant value. -/
def transmute_safe {w : DiscWidth} (src : Disc w) : Disc w :=
  src

/-- `key_impl_to_index`: transmute the key impl to its `Repr`
discriminant, then `into_usize`. -/
def key_impl_to_index {w : DiscWidth} (key : Disc w) : Nat :=
  into_usize (transmute_safe key)

/-- `key_to_index` (the spec's `index_of`): transmute the key to its
`KeyImpl` wrapper, then `key_impl_to_index`. -/
def key_to_index {w : DiscWidth} (key : Disc w) : Nat :=
  key_impl_to_index (transmute_safe key)

/-- A key type with a `#[repr(primitive)]` attribute as produced by the
`PrimitiveEnum` derive: the list of discriminants of its named values
(in declaration order) and the `MaxVariants` constant of its layout. -/
structure PrimitiveEnumTy (w : DiscWidth) where
  variants : List (Disc w)
  MAX_VARIANTS : Nat

/-- `Assoc<K, V>` for a key type whose `KeyImpl::Storage<V> = [V; N]`:
an array of `N` value slots, modelled as a list of that length. -/
structure Assoc (N : Nat) (V : Type) where
  storage : List V
  hlen : storage.length = N

namespace Assoc

/-- `Assoc::LEN`. -/
def LEN (N : Nat) (_V : Type) : Nat := N

/-- `Assoc::from_values`: direct full initialization from a value
array. -/
def from_values {V : Type} (N : Nat) (values : List V)
    (h : values.length = N) : Assoc N V :=
  ⟨values, h⟩

/-- `Assoc::len`: returns `Self::LEN`. -/
def len {N : Nat} {V : Type} (_m : Assoc N V) : Nat :=
  LEN N V

/-- `Assoc::is_empty`: `len() == 0`. -/
def is_empty {N : Nat} {V : Type} (m : Assoc N V) : Bool :=
  m.len == 0

/-- `Assoc::get`: index via `key_to_index` and access without a bounds
check (`get_unchecked`). The safety contract (index in bounds) is the
hypothesis `h`; calling it otherwise would be undefined behavior. -/
def get {w : DiscWidth} {N : Nat} {V : Type} (m : Assoc N V) (key : Disc w)
    (h : key_to_index key < N) : V :=
  m.storage.get ⟨key_to_index key, m.hlen.symm ▸ h⟩

/-- `Assoc::const_get`: index via `key_to_index` with a runtime bounds
check; an out-of-bounds index panics (modelled as `none`). -/
def const_get {w : DiscWidth} {N : Nat} {V : Type} (m : Assoc N V)
    (key : Disc w) : Option V :=
  m.storage[key_to_index key]?

/-- Writing a value through the mutable reference returned by
`Assoc::get_mut`: the reference designates slot `key_to_index key`
(obtained via `get_unchecked_mut`, in-bounds by the hypothesis `h`), so
the store replaces exactly that slot. -/
def get_mut_set {w : DiscWidth} {N : Nat} {V : Type} (m : Assoc N V)
    (key : Disc w) (_h : key_to_index key < N) (v : V) : Assoc N V :=
  ⟨m.storage.set (key_to_index key) v, by
    simpa using m.hlen⟩

/-- Writing through `Assoc::const_get_mut`: same slot, but the indexing
is bounds-checked, so an out-of-bounds index panics (`none`). -/
def const_get_mut_set {w : DiscWidth} {N : Nat} {V : Type} (m : Assoc N V)
    (key : Disc w) (v : V) : Option (Assoc N V) :=
  if h : key_to_index key < N then
    some (m.get_mut_set key h v)
  else
    none

/-- `Index::index` for `Assoc`: routes to `get`. -/
def index {w : DiscWidth} {N : Nat} {V : Type} (m : Assoc N V)
    (key : Disc w) (h : key_to_index key < N) : V :=
  m.get key h

/-- Writing through `IndexMut::index_mut` for `Assoc`: routes to
`get_mut`. -/
def index_mut_set {w : DiscWidth} {N : Nat} {V : Type} (m : Assoc N V)
    (key : Disc w) (h : key_to_index key < N) (v : V) : Assoc N V :=
  m.get_mut_set key h v

/-- `Assoc::into_values`: consume the map and iterate over
`self.storage` in storage order. -/
def into_values {N : Nat} {V : Type} (m : Assoc N V) : List V :=
  m.storage

/-- `Assoc::values`: iterate over shared references to `self.storage`
in storage order. -/
def values {N : Nat} {V : Type} (m : Assoc N V) : List V :=
  m.storage

/-- `Assoc::values_mut`: iterate over mutable references to
`self.storage` in storage order. -/
def values_mut {N : Nat} {V : Type} (m : Assoc N V) : List V :=
  m.storage

/-- `Assoc::<K, MaybeUninit<V>>::new_uninit`: `N` uninitialized slots.
`MaybeUninit<V>` is modelled as `Option V`, with `none` for an
uninitialized cell. -/
def new_uninit (N : Nat) (V : Type) : Assoc N (Option V) :=
  ⟨List.replicate N none, by simp⟩

/-- Modelled from the spec: the body of `utils::assume_init_array`
(called by `Assoc::assume_init`) is not among the provided sources. Per
the finalization contract (spec §4.4 step 5 and the safety comment on
`assume_init`), it reinterprets the array of `MaybeUninit<V>` slots as
an array of `V`, which is undefined behavior — modelled as `none` —
unless every slot holds an initialized value; on success each slot
keeps its value. -/
def assume_init {N : Nat} {V : Type} (m : Assoc N (Option V)) :
    Option (Assoc N V) :=
  if h : ∀ x ∈ m.storage, x.isSome then
    some ⟨m.storage.attach.map (fun x => x.1.get (h x.1 x.2)), by
      simpa using m.hlen⟩
  else
    none

end Assoc

/-- `assoc_macro_private::has_duplicate_keys`: the nested loops compare
`key_to_index(keys[i])` with `key_to_index(keys[j])` for every pair of
positions `i < j`, returning `true` on the first equal pair. The outer
loop peeling `i` corresponds to the head of the list; the inner loop
over `j > i` is the scan of the tail. -/
def has_duplicate_keys {w : DiscWidth} : List (Disc w) → Bool
  | [] => false
  | key :: rest =>
    rest.any (fun other => key_to_index key == key_to_index other)
      || has_duplicate_keys rest

/-- The assignment loop of the `assoc!` expansion: for each pair, write
`MaybeUninit::new(value)` into slot `key_to_index key` through
`const_get_mut` (bounds-checked, so an out-of-bounds key panics,
modelled as `none`). -/
def writeEntries {w : DiscWidth} {V : Type} {N : Nat} :
    List (Disc w × V) → Assoc N (Option V) → Option (Assoc N (Option V))
  | [], m => some m
  | (key, v) :: rest, m =>
    match m.const_get_mut_set key (some v) with
    | some m2 => writeEntries rest m2
    | none => none

/-- The full expansion of the `assoc!` literal facility on the pair
list `(key_1, value_1) .. (key_n, value_n)`: the surrounding `where`
clauses force the key and value counts to equal `N` (the hypothesis
`hN`); then `has_duplicate_keys` panics with the fixed diagnostic on a
repeated `key_to_index`; then `new_uninit`, the assignment loop, and
`assume_init`. -/
def assocLit {w : DiscWidth} {V : Type} (N : Nat)
    (pairs : List (Disc w × V)) (_hN : pairs.length = N) :
    Except String (Assoc N V) :=
  if has_duplicate_keys (pairs.map Prod.fst) then
    .error "A `ConstArrayMap` cannot have two values with identical keys."
  else
    match writeEntries pairs (Assoc.new_uninit N V) with
    | some m =>
      match m.assume_init with
      | some a => .ok a
      | none => .error "undefined behavior: map not fully initialized"
    | none => .error "panic: index out of bounds"

/-! ## Helper lemmas -/

theorem into_usize_eq_val {w : DiscWidth} (d : Disc w) : into_usize d = d.val := by
  have h : d.val < 2 ^ 64 :=
    lt_of_lt_of_le d.isLt (by cases w <;> decide)
  cases w <;> simp only [into_usize] <;> exact Nat.mod_eq_of_lt h

theorem key_to_index_eq_val {w : DiscWidth} (key : Disc w) :
    key_to_index key = key.val :=
  into_usize_eq_val key

theorem Assoc.storage_length {N : Nat} {V : Type} (m : Assoc N V) :
    m.storage.length = N :=
  m.hlen

theorem Assoc.get_eq_storage_getElem {w : DiscWidth} {N : Nat} {V : Type}
    (m : Assoc N V) (key : Disc w) (h : key_to_index key < N) :
    some (m.get key h) = m.storage[key_to_index key]? := by
  have hlt : key_to_index key < m.storage.length := m.hlen.symm ▸ h
  simp only [Assoc.get, List.get_eq_getElem]
  exact (List.getElem?_eq_getElem hlt).symm

theorem Assoc.const_get_eq_some {w : DiscWidth} {N : Nat} {V : Type}
    (m : Assoc N V) (key : Disc w) (h : key_to_index key < N) :
    m.const_get key = some (m.get key h) := by
  rw [Assoc.const_get, Assoc.get_eq_storage_getElem m key h]

theorem Assoc.const_get_mut_set_eq_some {w : DiscWidth} {N : Nat} {V : Type}
    (m : Assoc N V) (key : Disc w) (h : key_to_index key < N) (v : V) :
    m.const_get_mut_set key v = some (m.get_mut_set key h v) :=
  dif_pos h

theorem Assoc.get_mut_set_storage {w : DiscWidth} {N : Nat} {V : Type}
    (m : Assoc N V) (key : Disc w) (h : key_to_index key < N) (v : V) :
    (m.get_mut_set key h v).storage = m.storage.set (key_to_index key) v :=
  rfl

theorem Assoc.get_set_self {w : DiscWidth} {N : Nat} {V : Type}
    (m : Assoc N V) (key : Disc w) (h h2 : key_to_index key < N) (v : V) :
    (m.get_mut_set key h v).get key h2 = v := by
  apply Option.some.inj
  rw [Assoc.get_eq_storage_getElem, Assoc.get_mut_set_storage]
  exact List.getElem?_set_self (m.hlen.symm ▸ h)

theorem Assoc.get_set_ne {w : DiscWidth} {N : Nat} {V : Type}
    (m : Assoc N V) (k k2 : Disc w) (h : key_to_index k < N)
    (h2 : key_to_index k2 < N) (hne : key_to_index k2 ≠ key_to_index k)
    (v : V) :
    (m.get_mut_set k h v).get k2 h2 = m.get k2 h2 := by
  apply Option.some.inj
  rw [Assoc.get_eq_storage_getElem, Assoc.get_eq_storage_getElem,
    Assoc.get_mut_set_storage]
  exact List.getElem?_set_ne hne.symm

theorem has_duplicate_keys_iff_not_nodup {w : DiscWidth}
    (keys : List (Disc w)) :
    has_duplicate_keys keys = true ↔ ¬ (keys.map key_to_index).Nodup := by
  induction keys with
  | nil => simp [has_duplicate_keys]
  | cons key rest ih =>
    simp only [has_duplicate_keys, Bool.or_eq_true, List.any_eq_true,
      beq_iff_eq, ih, List.map_cons, List.nodup_cons]
    constructor
    · rintro (⟨other, hmem, heq⟩ | hdup) hcon
      · exact hcon.1 (List.mem_map.mpr ⟨other, hmem, heq.symm⟩)
      · exact hdup hcon.2
    · intro hcon
      by_cases hmem : key_to_index key ∈ rest.map key_to_index
      · rcases List.mem_map.mp hmem with ⟨other, hom, heq⟩
        exact Or.inl ⟨other, hom, heq.symm⟩
      · exact Or.inr fun hnd => hcon ⟨hmem, hnd⟩

theorem mem_of_nodup_length_bounded {l : List Nat} {N : Nat}
    (hnd : l.Nodup) (hlen : l.length = N) (hlt : ∀ x ∈ l, x < N) :
    ∀ j < N, j ∈ l := by
  intro j hj
  have hsub : l.toFinset ⊆ Finset.range N := by
    intro x hx
    simp only [List.mem_toFinset] at hx
    exact Finset.mem_range.mpr (hlt x hx)
  have hcard : (Finset.range N).card ≤ l.toFinset.card := by
    rw [List.toFinset_card_of_nodup hnd, hlen, Finset.card_range]
  have heq := Finset.eq_of_subset_of_card_le hsub hcard
  have hmem : j ∈ l.toFinset := by
    rw [heq]
    exact Finset.mem_range.mpr hj
  simpa using hmem

theorem writeEntries_spec {w : DiscWidth} {V : Type} {N : Nat}
    (pairs : List (Disc w × V)) :
    ∀ m : Assoc N (Option V),
      (∀ p ∈ pairs, key_to_index p.1 < N) →
      (pairs.map (fun p => key_to_index p.1)).Nodup →
      ∃ m2, writeEntries pairs m = some m2
        ∧ (∀ p ∈ pairs, m2.storage[key_to_index p.1]? = some (some p.2))
        ∧ (∀ j, j ∉ pairs.map (fun p => key_to_index p.1) →
            m2.storage[j]? = m.storage[j]?) := by
  induction pairs with
  | nil =>
    intro m _ _
    exact ⟨m, rfl, by simp, fun j _ => rfl⟩
  | cons hd rest ih =>
    intro m hvalid hnd
    obtain ⟨key, v⟩ := hd
    have hk : key_to_index key < N := hvalid (key, v) (by simp)
    simp only [List.map_cons, List.nodup_cons] at hnd
    have hstep : writeEntries ((key, v) :: rest) m
        = writeEntries rest (m.get_mut_set key hk (some v)) := by
      rw [writeEntries, Assoc.const_get_mut_set_eq_some m key hk (some v)]
    obtain ⟨m2, hw, hwrites, hframe⟩ :=
      ih (m.get_mut_set key hk (some v))
        (fun p hp => hvalid p (List.mem_cons_of_mem _ hp)) hnd.2
    refine ⟨m2, hstep.trans hw, ?_, ?_⟩
    · intro p hp
      rcases List.mem_cons.mp hp with hph | hpr
      · subst hph
        rw [hframe (key_to_index key) hnd.1, Assoc.get_mut_set_storage]
        exact List.getElem?_set_self (m.hlen.symm ▸ hk)
      · exact hwrites p hpr
    · intro j hj
      simp only [List.map_cons, List.mem_cons, not_or] at hj
      rw [hframe j hj.2, Assoc.get_mut_set_storage]
      exact List.getElem?_set_ne fun heq => hj.1 heq.symm

theorem Assoc.assume_init_spec {N : Nat} {V : Type} (m : Assoc N (Option V))
    (hinit : ∀ x ∈ m.storage, x.isSome) :
    ∃ a : Assoc N V, m.assume_init = some a
      ∧ ∀ (j : Nat) (v : V),
          m.storage[j]? = some (some v) → a.storage[j]? = some v := by
  refine ⟨⟨m.storage.attach.map (fun x => x.1.get (hinit x.1 x.2)), by
    simpa using m.hlen⟩, ?_, ?_⟩
  · unfold Assoc.assume_init
    exact dif_pos hinit
  intro j v hj
  have hjlt : j < m.storage.length := by
    by_contra hge
    rw [List.getElem?_eq_none (le_of_not_lt hge)] at hj
    exact absurd hj (by simp)
  have hlen2 : j < (m.storage.attach.map
      (fun x => x.1.get (hinit x.1 x.2))).length := by
    simpa using hjlt
  rw [List.getElem?_eq_getElem hjlt] at hj
  have hv := Option.some.inj hj
  simp only [List.getElem?_eq_getElem hlen2, List.getElem_map,
    List.getElem_attach, hv, Option.get_some]

theorem not_nodup_iff_exists_dup {l : List Nat} :
    ¬ l.Nodup ↔ ∃ i j : Nat, ∃ hi : i < l.length, ∃ hj : j < l.length,
      i < j ∧ l.get ⟨i, hi⟩ = l.get ⟨j, hj⟩ := by
  rw [List.Nodup, List.pairwise_iff_getElem]
  push_neg
  constructor
  · rintro ⟨i, j, hi, hj, hij, hne⟩
    exact ⟨i, j, hi, hj, hij, by simpa [List.get_eq_getElem] using hne⟩
  · rintro ⟨i, j, hi, hj, hij, heq⟩
    exact ⟨i, j, hi, hj, hij, by simpa [List.get_eq_getElem] using heq⟩

theorem assocLit_eq_dup_error_iff {w : DiscWidth} {V : Type} (N : Nat)
    (pairs : List (Disc w × V)) (hN : pairs.length = N) :
    (assocLit N pairs hN
        = .error "A `ConstArrayMap` cannot have two values with identical keys.")
    ↔ has_duplicate_keys (pairs.map Prod.fst) = true := by
  unfold assocLit
  by_cases hdup : has_duplicate_keys (pairs.map Prod.fst)
  · simp [hdup]
  · simp only [hdup, Bool.false_eq_true, if_false]
    constructor
    · intro hcon
      rcases hw : writeEntries pairs (Assoc.new_uninit N V) with _ | m
      · rw [hw] at hcon
        simp at hcon
      · rw [hw] at hcon
        rcases ha : m.assume_init with _ | a <;> simp [ha] at hcon
    · intro hcon
      exact absurd hcon (by simp [hdup])

theorem mapped_index_get {w : DiscWidth} {V : Type} (pairs : List (Disc w × V))
    (i : Nat) (hi : i < ((pairs.map Prod.fst).map key_to_index).length) :
    ∃ hi2 : i < pairs.length,
      ((pairs.map Prod.fst).map key_to_index).get ⟨i, hi⟩
        = key_to_index (pairs.get ⟨i, hi2⟩).1 := by
  have hi2 : i < pairs.length := by simpa using hi
  refine ⟨hi2, ?_⟩
  simp [List.get_eq_getElem, List.getElem_map]

/-! ## Claims -/

/-- C1: for every value `key` of a key type satisfying the enumeration
capability — every discriminant of its named values is below the
`MAX_VARIANTS` constant `N`, the storage array length — `key_to_index
key` (the spec's `index_of`) is strictly less than `N`; consequently
the unchecked accesses inside `get` and `get_mut`, at position
`key_to_index key` of `storage`, are in bounds. -/
theorem C1_index_in_bounds {w : DiscWidth} (E : PrimitiveEnumTy w)
    (hcap : ∀ d ∈ E.variants, d.val < E.MAX_VARIANTS)
    (key : Disc w) (hkey : key ∈ E.variants) :
    key_to_index key < E.MAX_VARIANTS
    ∧ ∀ (V : Type) (m : Assoc E.MAX_VARIANTS V),
        key_to_index key < m.storage.length := by
  have h : key_to_index key < E.MAX_VARIANTS := by
    rw [key_to_index_eq_val]
    exact hcap key hkey
  exact ⟨h, fun V m => m.hlen.symm ▸ h⟩

/-- Witness for C1 on the key type `{A = 0, B = 1}` with `N = 2`. -/
theorem C1_index_in_bounds_witness :
    key_to_index (⟨1, by decide⟩ : Disc .u8) < 2
    ∧ ∀ (V : Type) (m : Assoc 2 V),
        key_to_index (⟨1, by decide⟩ : Disc .u8) < m.storage.length :=
  C1_index_in_bounds ⟨[⟨0, by decide⟩, ⟨1, by decide⟩], 2⟩ (by decide)
    ⟨1, by decide⟩ (by decide)

/-- C2: for a key type with named values of declared discriminants
d_0..d_{M-1}, `key_to_index` (implementing the spec's `index_of`)
returns exactly d_i converted to `usize`, for every i; the underlying
lemma `into_usize_eq_val` goes by cases on the discriminant width,
covering each conversion path of `into_usize`
(u8 / u16 / u32 / u64 / usize). -/
theorem C2_index_of_eq_discriminant {w : DiscWidth} (E : PrimitiveEnumTy w)
    (i : Nat) (h : i < E.variants.length) :
    key_to_index (E.variants.get ⟨i, h⟩) = (E.variants.get ⟨i, h⟩).val :=
  key_to_index_eq_val _

/-- Witness for C2 on the key type `{X = 0, Y = 5}` (width u16). -/
theorem C2_index_of_eq_discriminant_witness :
    (0 : Nat) < 2
    ∧ key_to_index (([⟨0, by decide⟩, ⟨5, by decide⟩] :
          List (Disc .u16)).get ⟨0, by decide⟩)
        = (([⟨0, by decide⟩, ⟨5, by decide⟩] :
          List (Disc .u16)).get ⟨0, by decide⟩).val :=
  ⟨by decide,
    C2_index_of_eq_discriminant
      ⟨[⟨0, by decide⟩, ⟨5, by decide⟩], 6⟩ 0 (by decide)⟩

/-- C3: for every value array `values` of length `N` and every key of
the key type (in bounds, per the capability contract), the map built by
`from_values values` satisfies `get key = values[key_to_index key]`,
and likewise via `const_get`. -/
theorem C3_from_values_roundtrip {w : DiscWidth} {V : Type} (N : Nat)
    (values : List V) (h : values.length = N) (key : Disc w)
    (hk : key_to_index key < N) :
    (Assoc.from_values N values h).get key hk
        = values.get ⟨key_to_index key, h.symm ▸ hk⟩
    ∧ (Assoc.from_values N values h).const_get key
        = values[key_to_index key]? :=
  ⟨rfl, rfl⟩

/-- Witness for C3 on `from_values [10, 20, 30]` and key `2`. -/
theorem C3_from_values_roundtrip_witness :
    (Assoc.from_values 3 [10, 20, 30] rfl).get
        (⟨2, by decide⟩ : Disc .u8) (by decide)
      = ([10, 20, 30].get ⟨key_to_index (⟨2, by decide⟩ : Disc .u8),
          by decide⟩ : Nat)
    ∧ (Assoc.from_values 3 [10, 20, 30] rfl).const_get
        (⟨2, by decide⟩ : Disc .u8)
      = ([10, 20, 30] : List Nat)[key_to_index (⟨2, by decide⟩ : Disc .u8)]? :=
  C3_from_values_roundtrip 3 [10, 20, 30] rfl ⟨2, by decide⟩ (by decide)

/-- C6: for every map and every valid key, the bounds-checked accessors
are equivalent to the unchecked ones: `const_get` returns exactly the
value `get` returns, and writing through `const_get_mut` produces
exactly the map that writing through `get_mut` produces (hence any read
after either write agrees). -/
theorem C6_checked_unchecked_equiv {w : DiscWidth} {V : Type} {N : Nat}
    (m : Assoc N V) (key : Disc w) (h : key_to_index key < N) (v : V) :
    m.const_get key = some (m.get key h)
    ∧ m.const_get_mut_set key v = some (m.get_mut_set key h v) :=
  ⟨m.const_get_eq_some key h, m.const_get_mut_set_eq_some key h v⟩

/-- Witness for C6 on `from_values [10, 20, 30]`, key `1`, value 99. -/
theorem C6_checked_unchecked_equiv_witness :
    (Assoc.from_values 3 [10, 20, 30] rfl).const_get
        (⟨1, by decide⟩ : Disc .u8)
      = some ((Assoc.from_values 3 [10, 20, 30] rfl).get
          (⟨1, by decide⟩ : Disc .u8) (by decide))
    ∧ (Assoc.from_values 3 [10, 20, 30] rfl).const_get_mut_set
        (⟨1, by decide⟩ : Disc .u8) 99
      = some ((Assoc.from_values 3 [10, 20, 30] rfl).get_mut_set
          (⟨1, by decide⟩ : Disc .u8) (by decide) 99) :=
  C6_checked_unchecked_equiv (Assoc.from_values 3 [10, 20, 30] rfl)
    ⟨1, by decide⟩ (by decide) 99

/-- C7: a mutation performed through `get_mut key` is confined to slot
`key_to_index key`: every other key whose index differs reads the same
value before and after, and `len` is unchanged. -/
theorem C7_mutation_frame {w : DiscWidth} {V : Type} {N : Nat}
    (m : Assoc N V) (key other : Disc w) (h : key_to_index key < N)
    (h2 : key_to_index other < N)
    (hne : key_to_index other ≠ key_to_index key) (v : V) :
    (m.get_mut_set key h v).get other h2 = m.get other h2
    ∧ (m.get_mut_set key h v).len = m.len :=
  ⟨m.get_set_ne key other h h2 hne v, rfl⟩

/-- Witness for C7: write 99 at key `0`, read key `2`. -/
theorem C7_mutation_frame_witness :
    ((Assoc.from_values 3 [10, 20, 30] rfl).get_mut_set
        (⟨0, by decide⟩ : Disc .u8) (by decide) 99).get
        (⟨2, by decide⟩ : Disc .u8) (by decide)
      = (Assoc.from_values 3 [10, 20, 30] rfl).get
        (⟨2, by decide⟩ : Disc .u8) (by decide)
    ∧ ((Assoc.from_values 3 [10, 20, 30] rfl).get_mut_set
        (⟨0, by decide⟩ : Disc .u8) (by decide) 99).len
      = (Assoc.from_values 3 [10, 20, 30] rfl).len :=
  C7_mutation_frame (Assoc.from_values 3 [10, 20, 30] rfl)
    ⟨0, by decide⟩ ⟨2, by decide⟩ (by decide) (by decide) (by decide) 99

/-- C8: `values`, `values_mut` and `into_values` each yield exactly
`N = LEN` items, in storage order (slot j of the iteration is slot j of
`storage`); for a map built by `from_values values`, `into_values`
yields the elements of `values` in index order. -/
theorem C8_values_storage_order {V : Type} (N : Nat) (m : Assoc N V)
    (values : List V) (h : values.length = N) :
    m.values.length = N ∧ m.values_mut.length = N
    ∧ m.into_values.length = N
    ∧ (∀ j : Nat, m.values[j]? = m.storage[j]?
        ∧ m.values_mut[j]? = m.storage[j]?
        ∧ m.into_values[j]? = m.storage[j]?)
    ∧ (Assoc.from_values N values h).into_values = values :=
  ⟨m.hlen, m.hlen, m.hlen, fun _ => ⟨rfl, rfl, rfl⟩, rfl⟩

/-- Witness for C8 on `from_values [10, 20, 30]`. -/
theorem C8_values_storage_order_witness :
    (Assoc.from_values 3 [10, 20, 30] rfl).values.length = 3
    ∧ (Assoc.from_values 3 [10, 20, 30] rfl).values_mut.length = 3
    ∧ (Assoc.from_values 3 [10, 20, 30] rfl).into_values.length = 3
    ∧ (∀ j : Nat,
        (Assoc.from_values 3 [10, 20, 30] rfl).values[j]?
          = (Assoc.from_values 3 [10, 20, 30] rfl).storage[j]?
        ∧ (Assoc.from_values 3 [10, 20, 30] rfl).values_mut[j]?
          = (Assoc.from_values 3 [10, 20, 30] rfl).storage[j]?
        ∧ (Assoc.from_values 3 [10, 20, 30] rfl).into_values[j]?
          = (Assoc.from_values 3 [10, 20, 30] rfl).storage[j]?)
    ∧ (Assoc.from_values 3 [10, 20, 30] rfl).into_values = [10, 20, 30] :=
  C8_values_storage_order 3 (Assoc.from_values 3 [10, 20, 30] rfl)
    [10, 20, 30] rfl

/-- C9: for every map of a key type with `MaxVariants = N`, `len`
returns `N` and `is_empty` returns `true` exactly when `N = 0`, both
independent of the map's contents (the statement quantifies over every
map `m`). -/
theorem C9_len_is_empty {V : Type} (N : Nat) (m : Assoc N V) :
    m.len = N ∧ (m.is_empty = true ↔ N = 0) := by
  refine ⟨rfl, ?_⟩
  simp [Assoc.is_empty, Assoc.len, Assoc.LEN]

/-- C10: write-then-read round-trip: after assigning `v` through
`get_mut key` (equivalently through `const_get_mut key` or the
`IndexMut` operator), a subsequent `get key` (or `const_get key` or the
`Index` operator) returns `v`. -/
theorem C10_write_then_read {w : DiscWidth} {V : Type} {N : Nat}
    (m : Assoc N V) (key : Disc w) (h : key_to_index key < N) (v : V) :
    (m.get_mut_set key h v).get key h = v
    ∧ (m.index_mut_set key h v).index key h = v
    ∧ (m.get_mut_set key h v).const_get key = some v
    ∧ (m.const_get_mut_set key v).map (fun m2 => m2.get key h) = some v
    ∧ (m.const_get_mut_set key v).bind (fun m2 => m2.const_get key)
        = some v := by
  refine ⟨m.get_set_self key h h v, m.get_set_self key h h v, ?_, ?_, ?_⟩
  · rw [(m.get_mut_set key h v).const_get_eq_some key h,
      m.get_set_self key h h v]
  · rw [m.const_get_mut_set_eq_some key h v]
    simp only [Option.map_some']
    rw [m.get_set_self key h h v]
  · rw [m.const_get_mut_set_eq_some key h v]
    simp only [Option.some_bind]
    rw [(m.get_mut_set key h v).const_get_eq_some key h,
      m.get_set_self key h h v]

/-- Witness for C10 on `from_values [10, 20, 30]`, key `1`, value 99. -/
theorem C10_write_then_read_witness :
    ((Assoc.from_values 3 [10, 20, 30] rfl).get_mut_set
        (⟨1, by decide⟩ : Disc .u8) (by decide) 99).get
        (⟨1, by decide⟩ : Disc .u8) (by decide) = 99
    ∧ ((Assoc.from_values 3 [10, 20, 30] rfl).index_mut_set
        (⟨1, by decide⟩ : Disc .u8) (by decide) 99).index
        (⟨1, by decide⟩ : Disc .u8) (by decide) = 99
    ∧ ((Assoc.from_values 3 [10, 20, 30] rfl).get_mut_set
        (⟨1, by decide⟩ : Disc .u8) (by decide) 99).const_get
        (⟨1, by decide⟩ : Disc .u8) = some 99
    ∧ ((Assoc.from_values 3 [10, 20, 30] rfl).const_get_mut_set
        (⟨1, by decide⟩ : Disc .u8) 99).map
        (fun m2 => m2.get (⟨1, by decide⟩ : Disc .u8) (by decide))
        = some 99
    ∧ ((Assoc.from_values 3 [10, 20, 30] rfl).const_get_mut_set
        (⟨1, by decide⟩ : Disc .u8) 99).bind
        (fun m2 => m2.const_get (⟨1, by decide⟩ : Disc .u8))
        = some 99 :=
  C10_write_then_read (Assoc.from_values 3 [10, 20, 30] rfl)
    ⟨1, by decide⟩ (by decide) 99

/-- C4: for `N` key/value pairs of a key type (indices in bounds per
the capability contract) whose `key_to_index` values are pairwise
distinct, the literal pipeline (`new_uninit`, write each value into
slot `key_to_index key` through `const_get_mut`, `assume_init`)
succeeds, writes every slot exactly once (each slot index occurs
exactly once among the writes), and produces a map in which
`get key_i = value_i` for every i. -/
theorem C4_literal_pipeline {w : DiscWidth} {V : Type} (N : Nat)
    (pairs : List (Disc w × V)) (hN : pairs.length = N)
    (hvalid : ∀ p ∈ pairs, key_to_index p.1 < N)
    (hdist : (pairs.map (fun p => key_to_index p.1)).Nodup) :
    ∃ a : Assoc N V, assocLit N pairs hN = .ok a
      ∧ (∀ p ∈ pairs, ∀ h : key_to_index p.1 < N, a.get p.1 h = p.2)
      ∧ (∀ j < N, (pairs.map (fun p => key_to_index p.1)).count j = 1) := by
  have hmap : (pairs.map Prod.fst).map key_to_index
      = pairs.map (fun p => key_to_index p.1) := by
    simp [List.map_map, Function.comp]
  have hdup_false : has_duplicate_keys (pairs.map Prod.fst) = false := by
    rw [← Bool.not_eq_true, has_duplicate_keys_iff_not_nodup, not_not, hmap]
    exact hdist
  have hlenmap : (pairs.map (fun p => key_to_index p.1)).length = N := by
    simpa using hN
  have hltmap : ∀ x ∈ pairs.map (fun p => key_to_index p.1), x < N := by
    intro x hx
    rcases List.mem_map.mp hx with ⟨p, hp, rfl⟩
    exact hvalid p hp
  have hcover := mem_of_nodup_length_bounded hdist hlenmap hltmap
  obtain ⟨m2, hw, hwrites, hframe⟩ :=
    writeEntries_spec pairs (Assoc.new_uninit N V) hvalid hdist
  have hinit : ∀ x ∈ m2.storage, x.isSome := by
    intro x hx
    rcases List.mem_iff_getElem.mp hx with ⟨j, hjl, rfl⟩
    have hjN : j < N := by rw [← m2.hlen]; exact hjl
    rcases List.mem_map.mp (hcover j hjN) with ⟨p, hp, hpj⟩
    have hslot := hwrites p hp
    rw [hpj, List.getElem?_eq_getElem hjl] at hslot
    rw [Option.some.inj hslot]
    rfl
  obtain ⟨a, ha, haget⟩ := m2.assume_init_spec hinit
  refine ⟨a, ?_, ?_, ?_⟩
  · unfold assocLit
    rw [hdup_false]
    simp only [Bool.false_eq_true, if_false, hw, ha]
  · intro p hp h
    apply Option.some.inj
    rw [a.get_eq_storage_getElem p.1 h]
    exact haget (key_to_index p.1) p.2 (hwrites p hp)
  · intro j hj
    have hle := List.nodup_iff_count_le_one.mp hdist j
    have hge : 0 < (pairs.map (fun p => key_to_index p.1)).count j :=
      List.count_pos_iff.mpr (hcover j hj)
    omega

/-- Witness for C4: two pairs with keys `1` and `0`, `N = 2`. -/
theorem C4_literal_pipeline_witness :
    (∀ p ∈ [((⟨1, by decide⟩ : Disc .u8), (10 : Nat)), (⟨0, by decide⟩, 20)],
        key_to_index p.1 < 2)
    ∧ (([((⟨1, by decide⟩ : Disc .u8), (10 : Nat)), (⟨0, by decide⟩, 20)].map
        (fun p => key_to_index p.1)).Nodup)
    ∧ ∃ a : Assoc 2 Nat,
        assocLit 2
          [((⟨1, by decide⟩ : Disc .u8), (10 : Nat)), (⟨0, by decide⟩, 20)]
          rfl = .ok a
        ∧ (∀ p ∈ [((⟨1, by decide⟩ : Disc .u8), (10 : Nat)),
              (⟨0, by decide⟩, 20)],
            ∀ h : key_to_index p.1 < 2, a.get p.1 h = p.2)
        ∧ (∀ j < 2,
            ([((⟨1, by decide⟩ : Disc .u8), (10 : Nat)),
              (⟨0, by decide⟩, 20)].map
              (fun p => key_to_index p.1)).count j = 1) :=
  ⟨by decide, by decide,
    C4_literal_pipeline 2
      [((⟨1, by decide⟩ : Disc .u8), (10 : Nat)), (⟨0, by decide⟩, 20)]
      rfl (by decide) (by decide)⟩

/-- C5 counterexample: on a duplicated key, the literal pipeline does
reject construction, but its fixed diagnostic is "A `ConstArrayMap`
cannot have two values with identical keys.", not the text the claim
states ("an associative array cannot have two entries with identical
keys"). -/
theorem C5_counterexample_diagnostic :
    (assocLit 2
        [((⟨0, by decide⟩ : Disc .u8), (0 : Nat)), (⟨0, by decide⟩, 1)] rfl
        = .error "A `ConstArrayMap` cannot have two values with identical keys.")
    ∧ "A `ConstArrayMap` cannot have two values with identical keys."
        ≠ "an associative array cannot have two entries with identical keys" :=
  ⟨rfl, by decide⟩

/-- C5 (amended): literal construction is rejected with the fixed
diagnostic "A `ConstArrayMap` cannot have two values with identical
keys." if and only if there are positions i < j with
`key_to_index key_i = key_to_index key_j`; the associated values have
no effect on whether construction is rejected (two pair lists with the
same keys are rejected alike, whatever their value types and
values). -/
theorem C5_rejects_iff_duplicate {w : DiscWidth} {V V2 : Type} (N N2 : Nat)
    (pairs : List (Disc w × V)) (hN : pairs.length = N)
    (pairs2 : List (Disc w × V2)) (hN2 : pairs2.length = N2) :
    ((assocLit N pairs hN
        = .error "A `ConstArrayMap` cannot have two values with identical keys.")
      ↔ ∃ i j : Nat, ∃ hi : i < pairs.length, ∃ hj : j < pairs.length,
          i < j ∧ key_to_index (pairs.get ⟨i, hi⟩).1
                    = key_to_index (pairs.get ⟨j, hj⟩).1)
    ∧ (pairs.map Prod.fst = pairs2.map Prod.fst →
        ((assocLit N pairs hN
            = .error "A `ConstArrayMap` cannot have two values with identical keys.")
          ↔ (assocLit N2 pairs2 hN2
            = .error "A `ConstArrayMap` cannot have two values with identical keys."))) := by
  constructor
  · rw [assocLit_eq_dup_error_iff, has_duplicate_keys_iff_not_nodup,
      not_nodup_iff_exists_dup]
    constructor
    · rintro ⟨i, j, hi, hj, hij, heq⟩
      obtain ⟨hi2, ei⟩ := mapped_index_get pairs i hi
      obtain ⟨hj2, ej⟩ := mapped_index_get pairs j hj
      exact ⟨i, j, hi2, hj2, hij, by rw [← ei, ← ej, heq]⟩
    · rintro ⟨i, j, hi2, hj2, hij, heq⟩
      have hi : i < ((pairs.map Prod.fst).map key_to_index).length := by
        simpa using hi2
      have hj : j < ((pairs.map Prod.fst).map key_to_index).length := by
        simpa using hj2
      obtain ⟨hi3, ei⟩ := mapped_index_get pairs i hi
      obtain ⟨hj3, ej⟩ := mapped_index_get pairs j hj
      refine ⟨i, j, hi, hj, hij, ?_⟩
      rw [ei, ej]
      exact heq
  · intro hkeys
    rw [assocLit_eq_dup_error_iff, assocLit_eq_dup_error_iff, hkeys]

/-- Witness for C5 (amended): a duplicated key `0` at positions 0 < 1
makes the pipeline produce the fixed diagnostic. -/
theorem C5_rejects_iff_duplicate_witness :
    assocLit 2
        [((⟨0, by decide⟩ : Disc .u8), (0 : Nat)), (⟨0, by decide⟩, 1)] rfl
      = .error "A `ConstArrayMap` cannot have two values with identical keys." :=
  ((C5_rejects_iff_duplicate 2 2
      [((⟨0, by decide⟩ : Disc .u8), (0 : Nat)), (⟨0, by decide⟩, 1)] rfl
      [((⟨0, by decide⟩ : Disc .u8), (0 : Nat)), (⟨0, by decide⟩, 1)]
      rfl).1).mpr
    ⟨0, 1, by decide, by decide, by decide, by decide⟩
